import Mathlib

/-!
# Multi-device path tracer: a shallow embedding of `GPU/main.cc`

The development follows the source file top to bottom:

* `color`            the bounded bounce loop (lines 34-58);
* `render_init`      per-pixel random stream initialisation (lines 66-74);
* `render`           the per-pixel sampling kernel (lines 78-98);
* `chunk_y`, `min_y`, `max_y`, `blocks`, `threads`, `copy_band`
                      the per-device work split of `main` (lines 186-242);
* `emit_image`       the text serialisation at the end of `main` (lines 259-268).

Conventions.  The `int` values of the source are all non-negative on the paths
modelled here and are represented by `Nat`; `/` on `Nat` is the truncating
division of C on non-negative operands.  Floating point values are represented
by the elements of an ordered field (`ℚ` when a computation is evaluated), so
rounding is not modelled.  Device buffers are lists; a kernel is a function of
the thread's `blockIdx`, `threadIdx` and `blockDim` acting on the buffers, and a
launch folds that function over every thread of the grid.
-/

namespace RayTracing

/-! ## Vectors and rays -/

/-- Modelled from the spec: `vec3.h` is not among the sources.  A `vec3` is a
triple of components; the spec gives it componentwise arithmetic and scalar
scaling. -/
structure vec3 (α : Type) where
  x : α
  y : α
  z : α
deriving DecidableEq

namespace vec3

variable {α : Type}

/-- Modelled from the spec: `vec3.h` is not among the sources.  Componentwise
sum (`operator+`, `operator+=`). -/
def add [Add α] (a b : vec3 α) : vec3 α := ⟨a.x + b.x, a.y + b.y, a.z + b.z⟩

/-- Modelled from the spec: `vec3.h` is not among the sources.  Componentwise
product (`operator*` on two vectors, `operator*=`). -/
def mul [Mul α] (a b : vec3 α) : vec3 α := ⟨a.x * b.x, a.y * b.y, a.z * b.z⟩

/-- Modelled from the spec: `vec3.h` is not among the sources.  Scaling by a
scalar (`operator*` on a float and a vector). -/
def scale [Mul α] (t : α) (a : vec3 α) : vec3 α := ⟨t * a.x, t * a.y, t * a.z⟩

/-- Modelled from the spec: `vec3.h` is not among the sources.  Division of
every component by a scalar (`operator/=`). -/
def divScalar [Div α] (a : vec3 α) (t : α) : vec3 α := ⟨a.x / t, a.y / t, a.z / t⟩

/-- Every channel of the vector lies in the closed unit interval. -/
def InUnit [LE α] [Zero α] [One α] (a : vec3 α) : Prop :=
  (0 ≤ a.x ∧ a.x ≤ 1) ∧ (0 ≤ a.y ∧ a.y ≤ 1) ∧ (0 ≤ a.z ∧ a.z ≤ 1)

end vec3

/-- Modelled from the spec: `ray.h` is not among the sources.  A ray is an
origin and a direction. -/
structure ray (α : Type) where
  origin : vec3 α
  direction : vec3 α
deriving DecidableEq

/-- The constant `FLT_MAX` of `float.h`: `(2 - 2^(-23)) * 2^127`. -/
def FLT_MAX : Nat := 340282346638528859811704183484516925440

section Color

variable {α : Type} [LinearOrderedField α] {HitRec S : Type}

/-- The sky colour of lines 51-53, as a function of the escaping ray's
direction: `t = 0.5*(unit_direction.y() + 1.0)` and
`c = (1.0 - t)*vec3(1.0, 1.0, 1.0) + t*vec3(0.5, 0.7, 1.0)`. -/
def sky (unit_vector : vec3 α → vec3 α) (direction : vec3 α) : vec3 α :=
  let unit_direction := unit_vector direction
  let t : α := (1 / 2) * (unit_direction.y + 1)
  vec3.add (vec3.scale (1 - t) ⟨1, 1, 1⟩) (vec3.scale t ⟨1 / 2, 7 / 10, 1⟩)

/-- The loop of `color` (lines 37-56) with `n` iterations left, i.e. at loop
counter `i = 50 - n`.  The world's `hit` (with its interval bounds), the struck
material's `scatter` (which consumes the random state) and `unit_vector` live
in headers that are not among the sources and are parameters.  Besides the
returned colour and the random state the function reports, as a ghost value,
the rays passed to `hit`, in order. -/
def color_loop (hit : ray α → α → α → Option HitRec)
    (scatter : ray α → HitRec → S → Option (vec3 α × ray α) × S)
    (unit_vector : vec3 α → vec3 α) :
    Nat → ray α → vec3 α → S → vec3 α × S × List (ray α)
  | 0, _, _, st => (⟨0, 0, 0⟩, st, [])
  | n + 1, cur_ray, cur_attenuation, st =>
    match hit cur_ray (1 / 1000) (FLT_MAX : α) with
    | some rec =>
      match scatter cur_ray rec st with
      | (some (attenuation, scattered), st1) =>
        let out := color_loop hit scatter unit_vector n scattered
          (vec3.mul cur_attenuation attenuation) st1
        (out.1, out.2.1, cur_ray :: out.2.2)
      | (none, st1) => (⟨0, 0, 0⟩, st1, [cur_ray])
    | none =>
      (vec3.mul cur_attenuation (sky unit_vector cur_ray.direction), st, [cur_ray])

/-- The function `color` (lines 34-58) with its ghost list of intersection
queries: the loop starts from the primary ray with attenuation `(1, 1, 1)` and
runs at most 50 iterations. -/
def color_trace (hit : ray α → α → α → Option HitRec)
    (scatter : ray α → HitRec → S → Option (vec3 α × ray α) × S)
    (unit_vector : vec3 α → vec3 α) (r : ray α) (st : S) :
    vec3 α × S × List (ray α) :=
  color_loop hit scatter unit_vector 50 r ⟨1, 1, 1⟩ st

/-- The function `color` (lines 34-58): the returned colour and the random
state left behind. -/
def color (hit : ray α → α → α → Option HitRec)
    (scatter : ray α → HitRec → S → Option (vec3 α × ray α) × S)
    (unit_vector : vec3 α → vec3 α) (r : ray α) (st : S) : vec3 α × S :=
  let out := color_trace hit scatter unit_vector r st
  (out.1, out.2.1)

/-- A record of the first steps of a path: the attenuations returned by the
scatters so far, the rays that were tested against the world, the ray produced
by the last scatter and the random state after it. -/
structure Path (α S : Type) where
  attenuations : List (vec3 α)
  tested : List (ray α)
  current : ray α
  rand : S

/-- The path that hits a surface and scatters at each of its first `k` steps,
when there is one: `none` as soon as one of these steps misses the world or
meets a material that refuses to scatter. -/
def bounces (hit : ray α → α → α → Option HitRec)
    (scatter : ray α → HitRec → S → Option (vec3 α × ray α) × S) :
    Nat → ray α → S → Option (Path α S)
  | 0, r, st => some ⟨[], [], r, st⟩
  | k + 1, r, st =>
    match bounces hit scatter k r st with
    | none => none
    | some p =>
      match hit p.current (1 / 1000) (FLT_MAX : α) with
      | none => none
      | some rec =>
        match scatter p.current rec p.rand with
        | (some (attenuation, scattered), st1) =>
          some ⟨p.attenuations ++ [attenuation], p.tested ++ [p.current], scattered, st1⟩
        | (none, _) => none

end Color

/-! ## Kernel launches -/

/-- The two used dimensions of a `dim3` (the third is 1 throughout). -/
structure dim3 where
  x : Nat
  y : Nat
deriving DecidableEq

/-- The `(blockIdx, threadIdx)` pairs of a launch `<<<blocks, threads>>>`. -/
def grid_threads (blocks threads : dim3) : List (dim3 × dim3) :=
  (List.range blocks.y).flatMap fun b_y =>
    (List.range blocks.x).flatMap fun b_x =>
      (List.range threads.y).flatMap fun t_y =>
        (List.range threads.x).map fun t_x => ((⟨b_x, b_y⟩ : dim3), (⟨t_x, t_y⟩ : dim3))

/-- A launch `kernel<<<blocks, threads>>>`: every thread of the grid runs the
kernel on the device state.  The threads are run one after the other; the
kernels modelled here write only to the cell of their own pixel. -/
def launch {σ : Type} (blocks threads : dim3) (kernel : dim3 → dim3 → dim3 → σ → σ)
    (st : σ) : σ :=
  (grid_threads blocks threads).foldl (fun s bt => kernel bt.1 bt.2 threads s) st

/-- The pixel column `threadIdx.x + blockIdx.x * blockDim.x` of a thread. -/
def thread_i (blockIdx threadIdx blockDim : dim3) : Nat :=
  threadIdx.x + blockIdx.x * blockDim.x

/-- The band-local pixel row `threadIdx.y + blockIdx.y * blockDim.y` of a thread. -/
def thread_j (blockIdx threadIdx blockDim : dim3) : Nat :=
  threadIdx.y + blockIdx.y * blockDim.y

/-! ## `render_init` -/

/-- The kernel `render_init` (lines 66-74) as run by one thread.  `curand_init`
is the library routine, applied to seed, sequence number and offset in the
order of the call on line 73. -/
def render_init {S : Type} (curand_init : Nat → Nat → Nat → S)
    (min_y max_x max_y : Nat) (blockIdx threadIdx blockDim : dim3)
    (rand_state : List S) : List S :=
  let i := thread_i blockIdx threadIdx blockDim
  let j := thread_j blockIdx threadIdx blockDim
  if i ≥ max_x ∨ j ≥ max_y - min_y then rand_state
  else
    let pixel_index := (j + min_y) * max_x + i
    let local_index := j * max_x + i
    rand_state.set local_index (curand_init 1984 pixel_index 0)

/-- The sequence number `render_init` gives the stream of the pixel in column
`x` and row `y` of an image of width `max_x` (line 70, with `x = i` and
`y = j + min_y`). -/
def pixel_index (max_x x y : Nat) : Nat := y * max_x + x

/-! ## `render` -/

section Render

variable {α : Type} [LinearOrderedField α] {HitRec S : Type}

/-- The sample loop of `render` (lines 86-91) with `ns` samples left: the
accumulated colour and the random state after the last sample.
`curand_uniform` is the library routine behind `RND`; `get_ray` is the
camera's, from a header that is not among the sources. -/
def render_samples (curand_uniform : S → α × S)
    (get_ray : α → α → S → ray α × S)
    (hit : ray α → α → α → Option HitRec)
    (scatter : ray α → HitRec → S → Option (vec3 α × ray α) × S)
    (unit_vector : vec3 α → vec3 α)
    (i j min_y max_x max_y : Nat) :
    Nat → vec3 α → S → vec3 α × S
  | 0, col, st => (col, st)
  | ns + 1, col, st =>
    let d1 := curand_uniform st
    let u : α := ((i : α) + d1.1) / (max_x : α)
    let d2 := curand_uniform d1.2
    let v : α := (((j + min_y : Nat) : α) + d2.1) / (max_y : α)
    let r := get_ray u v d2.2
    let c := color hit scatter unit_vector r.1 r.2
    render_samples curand_uniform get_ray hit scatter unit_vector
      i j min_y max_x max_y ns (vec3.add col c.1) c.2

/-- Lines 85-96 of `render` for the pixel of one thread: the sample loop from
the colour `(0, 0, 0)`, the division by `ns` and the square root of every
channel; the result is the stored colour and the random state written back.
`sqrt` is the library routine. -/
def render_pixel (curand_uniform : S → α × S)
    (get_ray : α → α → S → ray α × S)
    (hit : ray α → α → α → Option HitRec)
    (scatter : ray α → HitRec → S → Option (vec3 α × ray α) × S)
    (unit_vector : vec3 α → vec3 α) (sqrt : α → α)
    (i j min_y max_x max_y ns : Nat) (local_rand_state : S) : vec3 α × S :=
  let out := render_samples curand_uniform get_ray hit scatter unit_vector
    i j min_y max_x max_y ns ⟨0, 0, 0⟩ local_rand_state
  let col := vec3.divScalar out.1 (ns : α)
  (⟨sqrt col.x, sqrt col.y, sqrt col.z⟩, out.2)

/-- The kernel `render` (lines 78-98) as run by one thread, on the private
framebuffer and the random states of the band (the two components of `bufs`).
A read of `rand_state[local_index]` outside the array leaves the buffers as
they are. -/
def render (curand_uniform : S → α × S)
    (get_ray : α → α → S → ray α × S)
    (hit : ray α → α → α → Option HitRec)
    (scatter : ray α → HitRec → S → Option (vec3 α × ray α) × S)
    (unit_vector : vec3 α → vec3 α) (sqrt : α → α)
    (min_y max_x max_y ns : Nat) (blockIdx threadIdx blockDim : dim3)
    (bufs : List (vec3 α) × List S) : List (vec3 α) × List S :=
  let i := thread_i blockIdx threadIdx blockDim
  let j := thread_j blockIdx threadIdx blockDim
  if i ≥ max_x ∨ j ≥ max_y - min_y then bufs
  else
    let local_index := j * max_x + i
    match bufs.2[local_index]? with
    | none => bufs
    | some local_rand_state =>
      let out := render_pixel curand_uniform get_ray hit scatter unit_vector sqrt
        i j min_y max_x max_y ns local_rand_state
      (bufs.1.set local_index out.1, bufs.2.set local_index out.2)

/-! ### Observing the calls of `get_ray`

`get_ray`, `curand_uniform` and `scatter` are parameters of `render`, so the
arguments that `render` passes to `get_ray` can be read off by running it with a
`get_ray` that writes them down.  The random state is paired with a list of
calls; `get_ray` appends the coordinates and the random state it receives, the
two other routines leave the list alone. -/

/-- The routine `curand_uniform` on a random state paired with a list of
calls: the draw of `curand_uniform`, the list unchanged. -/
def logged_uniform (curand_uniform : S → α × S) (st : S × List (α × α × S)) :
    α × (S × List (α × α × S)) :=
  ((curand_uniform st.1).1, ((curand_uniform st.1).2, st.2))

/-- The camera's `get_ray` on a random state paired with a list of calls: the
ray of `get_ray`, and the arguments `(u, v, random state)` of this call appended
to the list. -/
def logged_get_ray (get_ray : α → α → S → ray α × S) (u v : α)
    (st : S × List (α × α × S)) : ray α × (S × List (α × α × S)) :=
  ((get_ray u v st.1).1, ((get_ray u v st.1).2, st.2 ++ [(u, v, st.1)]))

/-- The material's `scatter` on a random state paired with a list of calls:
the result of `scatter`, the list unchanged. -/
def logged_scatter (scatter : ray α → HitRec → S → Option (vec3 α × ray α) × S)
    (r : ray α) (rec : HitRec) (st : S × List (α × α × S)) :
    Option (vec3 α × ray α) × (S × List (α × α × S)) :=
  ((scatter r rec st.1).1, ((scatter r rec st.1).2, st.2))

end Render

/-! ## The work split of `main` -/

/-- Image width (line 156). -/
def nx : Nat := 7680

/-- Image height (line 157). -/
def ny : Nat := 4320

/-- Samples per pixel (line 158). -/
def ns : Nat := 1000

/-- Thread block width (line 159). -/
def tx : Nat := 8

/-- Thread block height (line 160). -/
def ty : Nat := 8

/-- Line 186: `chunk_y = ny / num_devices`. -/
def chunk_y (ny num_devices : Nat) : Nat := ny / num_devices

/-- Line 187: `min_y = dev_id * chunk_y`. -/
def min_y (ny num_devices dev_id : Nat) : Nat := dev_id * chunk_y ny num_devices

/-- Lines 189-190: `max_y = (dev_id + 1) * chunk_y`, replaced by `ny` when it
exceeds `ny`. -/
def max_y (ny num_devices dev_id : Nat) : Nat :=
  let max_y := (dev_id + 1) * chunk_y ny num_devices
  if max_y > ny then ny else max_y

/-- Row `y` belongs to the band `[min_y, max_y)` of device `dev_id`. -/
def in_band (ny num_devices dev_id y : Nat) : Prop :=
  min_y ny num_devices dev_id ≤ y ∧ y < max_y ny num_devices dev_id

instance (ny num_devices dev_id y : Nat) : Decidable (in_band ny num_devices dev_id y) :=
  inferInstanceAs (Decidable (_ ∧ _))

/-- Lines 192 and 200: the number of entries `max_x * (max_y - min_y)` of a
device's private framebuffer and of its array of random states. -/
def private_count (nx ny num_devices dev_id : Nat) : Nat :=
  nx * (max_y ny num_devices dev_id - min_y ny num_devices dev_id)

/-- Line 222: `dim3 blocks((nx/tx)+1, ((ny/ty)+1)/num_devices)`. -/
def blocks (nx ny tx ty num_devices : Nat) : dim3 :=
  ⟨nx / tx + 1, (ny / ty + 1) / num_devices⟩

/-- Line 223: `dim3 threads(tx, ty)`. -/
def threads (tx ty : Nat) : dim3 := ⟨tx, ty⟩

/-- The launch of line 231: `render_init<<<blocks, threads>>>` for one device. -/
def launch_render_init {S : Type} (curand_init : Nat → Nat → Nat → S)
    (nx ny tx ty num_devices dev_id : Nat) (d_rand_state : List S) : List S :=
  launch (blocks nx ny tx ty num_devices) (threads tx ty)
    (render_init curand_init (min_y ny num_devices dev_id) nx (max_y ny num_devices dev_id))
    d_rand_state

/-- The launch of line 234: `render<<<blocks, threads>>>` for one device, on its
private framebuffer and random states. -/
def launch_render {α : Type} [LinearOrderedField α] {HitRec S : Type}
    (curand_uniform : S → α × S) (get_ray : α → α → S → ray α × S)
    (hit : ray α → α → α → Option HitRec)
    (scatter : ray α → HitRec → S → Option (vec3 α × ray α) × S)
    (unit_vector : vec3 α → vec3 α) (sqrt : α → α)
    (nx ny tx ty ns num_devices dev_id : Nat)
    (bufs : List (vec3 α) × List S) : List (vec3 α) × List S :=
  launch (blocks nx ny tx ty num_devices) (threads tx ty)
    (render curand_uniform get_ray hit scatter unit_vector sqrt
      (min_y ny num_devices dev_id) nx (max_y ny num_devices dev_id) ns)
    bufs

/-- The buffer `dst` with the entries `off, ..., off + count - 1` replaced by
the first `count` entries of `src`. -/
def splice {γ : Type} (dst : List γ) (off : Nat) (src : List γ) (count : Nat) : List γ :=
  dst.take off ++ (src.take count ++ dst.drop (off + count))

/-- A copy of `count` entries of `src` to `dst + off` (`cudaMemcpy`, counted in
entries rather than bytes).  The copy is defined when it stays inside both
buffers. -/
def cudaMemcpy {γ : Type} (dst : List γ) (off : Nat) (src : List γ) (count : Nat) :
    Option (List γ) :=
  if off + count ≤ dst.length ∧ count ≤ src.length then some (splice dst off src count)
  else none

/-- Lines 240-241: device `dev_id` copies its private framebuffer `d_fb` to
`h_fb + min_y*max_x`. -/
def copy_band {γ : Type} (nx ny num_devices dev_id : Nat) (h_fb d_fb : List γ) :
    Option (List γ) :=
  let pixel_index := min_y ny num_devices dev_id * nx
  cudaMemcpy h_fb pixel_index d_fb (private_count nx ny num_devices dev_id)

/-- The shared framebuffer after the devices of `order` have performed their
copies one after the other (the critical section of lines 238-242);
`d_fb dev_id` is the private framebuffer of device `dev_id`. -/
def assemble {γ : Type} (nx ny num_devices : Nat) (d_fb : Nat → List γ) :
    List Nat → List γ → Option (List γ)
  | [], h_fb => some h_fb
  | dev_id :: rest, h_fb =>
    match copy_band nx ny num_devices dev_id h_fb (d_fb dev_id) with
    | none => none
    | some h_fb1 => assemble nx ny num_devices d_fb rest h_fb1

/-! ## Image output -/

section Output

variable {α : Type} [LinearOrderedField α] [FloorRing α]

end Output

/-! ## A small scene on which the definitions are evaluated -/

/-- A world that is a ground plane: a ray is hit exactly when it does not
point upward. -/
def ground_hit (r : ray ℚ) (_t_min _t_max : ℚ) : Option Unit :=
  if r.direction.y ≤ 0 then some () else none

/-- A world that is a closed box: every ray is hit. -/
def box_hit (_r : ray ℚ) (_t_min _t_max : ℚ) : Option Unit := some ()

/-- A grey material: it scatters straight up with attenuation `1/2` and draws
once from the random stream (a counter). -/
def grey_scatter (r : ray ℚ) (_rec : Unit) (st : Nat) : Option (vec3 ℚ × ray ℚ) × Nat :=
  (some (⟨1 / 2, 1 / 2, 1 / 2⟩, ⟨r.origin, ⟨0, 1, 0⟩⟩), st + 1)

/-- A material that absorbs every ray, after one draw from the random stream. -/
def black_scatter (_r : ray ℚ) (_rec : Unit) (st : Nat) : Option (vec3 ℚ × ray ℚ) × Nat :=
  (none, st + 1)

/-- Normalisation on the vertical axis: the unit vector pointing up for a
direction with positive `y`, the one pointing down otherwise. -/
def axis_unit_vector (v : vec3 ℚ) : vec3 ℚ := ⟨0, if 0 < v.y then 1 else -1, 0⟩

/-- A ray pointing straight down. -/
def down_ray : ray ℚ := ⟨⟨0, 1, 0⟩, ⟨0, -1, 0⟩⟩

/-- A random routine that returns `1/2` at every draw and counts the draws. -/
def half_uniform (st : Nat) : ℚ × Nat := (1 / 2, st + 1)

/-- A camera at `(0, 1, 0)` whose ray through `(u, v)` has direction
`(u, v - 1, -1)`. -/
def pinhole_get_ray (u v : ℚ) (st : Nat) : ray ℚ × Nat := (⟨⟨0, 1, 0⟩, ⟨u, v - 1, -1⟩⟩, st)

/-- A square root routine for the scene; its values do not matter to the
statements evaluated on it. -/
def plain_sqrt (c : ℚ) : ℚ := c

/-- The private framebuffer and random states of a device with a band of four
pixels, before the kernels run. -/
def fresh_bufs : List (vec3 ℚ) × List Nat := (List.replicate 4 ⟨0, 0, 0⟩, List.replicate 4 0)

/-- The buffers `fresh_bufs` with an empty list of calls beside every random
state. -/
def fresh_logged_bufs : List (vec3 ℚ) × List (Nat × List (ℚ × ℚ × Nat)) :=
  (List.replicate 4 ⟨0, 0, 0⟩, List.replicate 4 (0, []))

/-- A shared framebuffer of eight pixels before any copy. -/
def fresh_h_fb : List (vec3 ℚ) := List.replicate 8 ⟨0, 0, 0⟩

/-- Private framebuffers for a `2 x 5` image on two devices: the one of device
`d` is filled with the value `d + 1`. -/
def marked_d_fb (d : Nat) : List Nat := List.replicate (private_count 2 5 2 d) (d + 1)

/-- A stand-in for `curand_init` that records its three arguments. -/
def record_init (seed sequence offset : Nat) : Nat × Nat × Nat := (seed, sequence, offset)

/-! # Theorems -/

/-! ## The row bands -/

theorem chunk_mul_le (H D d : Nat) (hd : d < D) : (d + 1) * chunk_y H D ≤ H := by
  unfold chunk_y
  calc (d + 1) * (H / D) ≤ D * (H / D) := Nat.mul_le_mul_right _ hd
    _ ≤ H := Nat.mul_div_le H D

theorem max_y_eq (H D d : Nat) (hd : d < D) : max_y H D d = (d + 1) * chunk_y H D := by
  have h := chunk_mul_le H D d hd
  unfold max_y
  simp only
  rw [if_neg (by omega)]

theorem max_y_le (H D d : Nat) : max_y H D d ≤ H := by
  unfold max_y
  simp only
  split <;> omega

theorem min_y_le_max_y (H D d : Nat) (hd : d < D) : min_y H D d ≤ max_y H D d := by
  rw [max_y_eq H D d hd]
  unfold min_y
  exact Nat.mul_le_mul_right _ (Nat.le_succ d)

theorem band_rows_eq (H D d : Nat) (hd : d < D) :
    max_y H D d - min_y H D d = chunk_y H D := by
  rw [max_y_eq H D d hd]
  unfold min_y
  rw [Nat.succ_mul]
  omega

theorem in_band_iff (H D d y : Nat) (hd : d < D) :
    in_band H D d y ↔ d * chunk_y H D ≤ y ∧ y < (d + 1) * chunk_y H D := by
  unfold in_band
  rw [max_y_eq H D d hd]
  rfl

/-- The rows that belong to some band are exactly those below
`num_devices * chunk_y`. -/
theorem bands_cover_iff (H D y : Nat) :
    (∃ d, d < D ∧ in_band H D d y) ↔ y < D * chunk_y H D := by
  constructor
  · rintro ⟨d, hd, hy⟩
    rw [in_band_iff H D d y hd] at hy
    calc y < (d + 1) * chunk_y H D := hy.2
      _ ≤ D * chunk_y H D := Nat.mul_le_mul_right _ hd
  · intro hy
    have hc : 0 < chunk_y H D := by
      rcases Nat.eq_zero_or_pos (chunk_y H D) with h | h
      · rw [h] at hy; simp at hy
      · exact h
    refine ⟨y / chunk_y H D, ?_, ?_⟩
    · exact (Nat.div_lt_iff_lt_mul hc).2 hy
    · rw [in_band_iff H D _ y ((Nat.div_lt_iff_lt_mul hc).2 hy)]
      constructor
      · exact Nat.div_mul_le_self y _
      · have h := Nat.lt_mul_div_succ y hc
        rw [Nat.mul_comm] at h
        exact h

/-- A row belongs to the band of at most one device. -/
theorem band_unique (H D d e y : Nat) (hd : d < D) (he : e < D)
    (h1 : in_band H D d y) (h2 : in_band H D e y) : d = e := by
  rw [in_band_iff H D d y hd] at h1
  rw [in_band_iff H D e y he] at h2
  by_contra hne
  rcases Nat.lt_or_gt_of_ne hne with h | h
  · have : (d + 1) * chunk_y H D ≤ e * chunk_y H D := Nat.mul_le_mul_right _ h
    omega
  · have : (e + 1) * chunk_y H D ≤ d * chunk_y H D := Nat.mul_le_mul_right _ h
    omega

/-! ## Copies between buffers -/

theorem length_splice {γ : Type} (dst src : List γ) (off n : Nat)
    (h1 : off + n ≤ dst.length) (h2 : n ≤ src.length) :
    (splice dst off src n).length = dst.length := by
  unfold splice
  simp only [List.length_append, List.length_take, List.length_drop]
  omega

theorem getElem?_splice {γ : Type} (dst src : List γ) (off n k : Nat)
    (h1 : off + n ≤ dst.length) (h2 : n ≤ src.length) :
    (splice dst off src n)[k]? =
      if k < off then dst[k]? else if k < off + n then src[k - off]? else dst[k]? := by
  unfold splice
  have l1 : (dst.take off).length = off := by simp; omega
  have l2 : (src.take n).length = n := by simp; omega
  by_cases hk : k < off
  · rw [if_pos hk, List.getElem?_append_left (by omega), List.getElem?_take_of_lt hk]
  · rw [if_neg hk, List.getElem?_append_right (by omega), l1]
    by_cases hk2 : k < off + n
    · rw [if_pos hk2, List.getElem?_append_left (by omega),
        List.getElem?_take_of_lt (by omega)]
    · rw [if_neg hk2, List.getElem?_append_right (by omega), l2, List.getElem?_drop]
      congr 1
      omega

theorem cudaMemcpy_eq {γ : Type} (dst src : List γ) (off n : Nat)
    (h1 : off + n ≤ dst.length) (h2 : n ≤ src.length) :
    cudaMemcpy dst off src n = some (splice dst off src n) := by
  unfold cudaMemcpy
  rw [if_pos ⟨h1, h2⟩]

theorem band_range_end (W H D d : Nat) (hd : d < D) :
    min_y H D d * W + private_count W H D d = max_y H D d * W := by
  unfold private_count
  have h := min_y_le_max_y H D d hd
  obtain ⟨c, hc⟩ := Nat.exists_eq_add_of_le h
  rw [hc, Nat.add_sub_cancel_left]
  ring

theorem band_range_le (W H D d : Nat) : max_y H D d * W ≤ W * H := by
  rw [Nat.mul_comm W H]
  exact Nat.mul_le_mul_right _ (max_y_le H D d)

theorem copy_band_eq {γ : Type} (W H D d : Nat) (hd : d < D) (h_fb d_fb : List γ)
    (hh : h_fb.length = W * H) (hp : d_fb.length = private_count W H D d) :
    copy_band W H D d h_fb d_fb =
      some (splice h_fb (min_y H D d * W) d_fb (private_count W H D d)) := by
  unfold copy_band
  simp only
  apply cudaMemcpy_eq
  · rw [band_range_end W H D d hd, hh]
    exact band_range_le W H D d
  · omega

theorem local_index_lt (W i j rows : Nat) (hi : i < W) (hj : j < rows) :
    j * W + i < W * rows := by
  calc j * W + i < j * W + W := by omega
    _ = (j + 1) * W := by ring
    _ ≤ rows * W := Nat.mul_le_mul_right _ hj
    _ = W * rows := Nat.mul_comm _ _

/-! ## The launch grid -/

theorem mem_grid_threads (B T : dim3) (bt : dim3 × dim3) :
    bt ∈ grid_threads B T ↔
      bt.1.x < B.x ∧ bt.1.y < B.y ∧ bt.2.x < T.x ∧ bt.2.y < T.y := by
  obtain ⟨⟨b_x, b_y⟩, ⟨t_x, t_y⟩⟩ := bt
  unfold grid_threads
  simp only [List.mem_flatMap, List.mem_map, List.mem_range, Prod.mk.injEq, dim3.mk.injEq]
  constructor
  · rintro ⟨a, ha, b, hb, c, hc, e, he, ⟨h1, h2⟩, h3, h4⟩
    subst h1 h2 h3 h4
    exact ⟨hb, ha, he, hc⟩
  · rintro ⟨h1, h2, h3, h4⟩
    exact ⟨b_y, h2, b_x, h1, t_y, h4, t_x, h3, ⟨rfl, rfl⟩, rfl, rfl⟩

theorem foldl_invariant {σ β : Type} (P : σ → Prop) (f : σ → β → σ) (l : List β)
    (h : ∀ x ∈ l, ∀ s, P s → P (f s x)) (s : σ) (hs : P s) : P (l.foldl f s) := by
  induction l generalizing s with
  | nil => exact hs
  | cons a l ih =>
    rw [List.foldl_cons]
    exact ih (fun x hx => h x (List.mem_cons_of_mem _ hx)) _
      (h a (List.mem_cons_self _ _) s hs)

theorem render_init_other {S : Type} (ci : Nat → Nat → Nat → S) (lo W hi : Nat)
    (b t bd : dim3) (rs : List S) (k : Nat)
    (hk : k ≠ thread_j b t bd * W + thread_i b t bd) :
    (render_init ci lo W hi b t bd rs)[k]? = rs[k]? := by
  unfold render_init
  simp only
  split
  · rfl
  · rw [List.getElem?_set_ne (Ne.symm hk)]

theorem render_other {α : Type} [LinearOrderedField α] {HitRec S : Type}
    (cu : S → α × S) (gr : α → α → S → ray α × S)
    (hit : ray α → α → α → Option HitRec)
    (sc : ray α → HitRec → S → Option (vec3 α × ray α) × S)
    (uv : vec3 α → vec3 α) (sq : α → α) (lo W hi n : Nat)
    (b t bd : dim3) (bufs : List (vec3 α) × List S) (k : Nat)
    (hk : k ≠ thread_j b t bd * W + thread_i b t bd) :
    (render cu gr hit sc uv sq lo W hi n b t bd bufs).1[k]? = bufs.1[k]? := by
  unfold render
  simp only
  split
  · rfl
  · split
    · rfl
    · simp only
      rw [List.getElem?_set_ne (Ne.symm hk)]

theorem render_init_inactive {S : Type} (ci : Nat → Nat → Nat → S) (lo W hi : Nat)
    (b t bd : dim3) (rs : List S) (h : W ≤ thread_i b t bd ∨ hi - lo ≤ thread_j b t bd) :
    render_init ci lo W hi b t bd rs = rs := by
  unfold render_init
  simp only
  rw [if_pos h]

theorem render_inactive {α : Type} [LinearOrderedField α] {HitRec S : Type}
    (cu : S → α × S) (gr : α → α → S → ray α × S)
    (hit : ray α → α → α → Option HitRec)
    (sc : ray α → HitRec → S → Option (vec3 α × ray α) × S)
    (uv : vec3 α → vec3 α) (sq : α → α) (lo W hi n : Nat)
    (b t bd : dim3) (bufs : List (vec3 α) × List S)
    (h : W ≤ thread_i b t bd ∨ hi - lo ≤ thread_j b t bd) :
    render cu gr hit sc uv sq lo W hi n b t bd bufs = bufs := by
  unfold render
  simp only
  rw [if_pos h]

theorem band_order (H D d e : Nat) (he : e < D) (h : d < e) :
    max_y H D d ≤ min_y H D e := by
  rw [max_y_eq H D d (by omega)]
  unfold min_y
  exact Nat.mul_le_mul_right _ h

theorem band_ranges_apart (W H D d e : Nat) (hd : d < D) (he : e < D) (hne : d ≠ e) :
    max_y H D d * W ≤ min_y H D e * W ∨ max_y H D e * W ≤ min_y H D d * W := by
  rcases Nat.lt_or_gt_of_ne hne with h | h
  · exact Or.inl (Nat.mul_le_mul_right _ (band_order H D d e he h))
  · exact Or.inr (Nat.mul_le_mul_right _ (band_order H D e d hd h))

theorem splice_comm {γ : Type} (dst s1 s2 : List γ) (o1 n1 o2 n2 : Nat)
    (h1 : o1 + n1 ≤ dst.length) (g1 : n1 ≤ s1.length)
    (h2 : o2 + n2 ≤ dst.length) (g2 : n2 ≤ s2.length)
    (hd : o1 + n1 ≤ o2 ∨ o2 + n2 ≤ o1) :
    splice (splice dst o1 s1 n1) o2 s2 n2 = splice (splice dst o2 s2 n2) o1 s1 n1 := by
  have e1 := length_splice dst s1 o1 n1 h1 g1
  have e2 := length_splice dst s2 o2 n2 h2 g2
  apply List.ext_getElem?
  intro k
  rw [getElem?_splice (splice dst o1 s1 n1) s2 o2 n2 k (by omega) g2,
    getElem?_splice (splice dst o2 s2 n2) s1 o1 n1 k (by omega) g1,
    getElem?_splice dst s1 o1 n1 k h1 g1, getElem?_splice dst s2 o2 n2 k h2 g2]
  split_ifs <;> first | rfl | omega

theorem copy_band_length {γ : Type} (W H D d : Nat) (hd : d < D) (h_fb d_fb out : List γ)
    (hh : h_fb.length = W * H) (hp : d_fb.length = private_count W H D d)
    (ho : copy_band W H D d h_fb d_fb = some out) : out.length = W * H := by
  rw [copy_band_eq W H D d hd h_fb d_fb hh hp] at ho
  cases ho
  rw [length_splice, hh]
  · rw [band_range_end W H D d hd, hh]
    exact band_range_le W H D d
  · omega

theorem copy_band_comm {γ : Type} (W H D a b : Nat) (ha : a < D) (hb : b < D)
    (d_fb : Nat → List γ) (h_fb : List γ) (hh : h_fb.length = W * H)
    (hpa : (d_fb a).length = private_count W H D a)
    (hpb : (d_fb b).length = private_count W H D b) :
    (copy_band W H D a h_fb (d_fb a)).bind (fun f => copy_band W H D b f (d_fb b)) =
      (copy_band W H D b h_fb (d_fb b)).bind (fun f => copy_band W H D a f (d_fb a)) := by
  by_cases hab : a = b
  · subst hab
    rfl
  have ea := band_range_end W H D a ha
  have eb := band_range_end W H D b hb
  have la := band_range_le W H D a
  have lb := band_range_le W H D b
  rw [copy_band_eq W H D a ha h_fb _ hh hpa, copy_band_eq W H D b hb h_fb _ hh hpb]
  simp only [Option.some_bind]
  rw [copy_band_eq W H D b hb _ _ (by rw [length_splice _ _ _ _ (by omega) (by omega), hh]) hpb,
    copy_band_eq W H D a ha _ _ (by rw [length_splice _ _ _ _ (by omega) (by omega), hh]) hpa]
  congr 1
  apply splice_comm _ _ _ _ _ _ _ (by omega) (by omega) (by omega) (by omega)
  rcases band_ranges_apart W H D a b ha hb hab with h | h
  · left; omega
  · right; omega

theorem assemble_cons {γ : Type} (W H D : Nat) (d_fb : Nat → List γ) (d : Nat)
    (rest : List Nat) (h_fb : List γ) :
    assemble W H D d_fb (d :: rest) h_fb =
      (copy_band W H D d h_fb (d_fb d)).bind (assemble W H D d_fb rest) := by
  rw [assemble]
  cases copy_band W H D d h_fb (d_fb d) <;> rfl

theorem assemble_perm {γ : Type} (W H D : Nat) (d_fb : Nat → List γ)
    (hfb : ∀ d, d < D → (d_fb d).length = private_count W H D d)
    (o1 o2 : List Nat) (hp : o1.Perm o2) (ho : ∀ d ∈ o1, d < D) :
    ∀ h_fb : List γ, h_fb.length = W * H →
      assemble W H D d_fb o1 h_fb = assemble W H D d_fb o2 h_fb := by
  induction hp with
  | nil => intro h_fb _; rfl
  | cons d _ ih =>
    intro h_fb hh
    have hd := ho d (List.mem_cons_self _ _)
    rw [assemble_cons, assemble_cons, copy_band_eq W H D d hd h_fb _ hh (hfb d hd)]
    simp only [Option.some_bind]
    apply ih (fun e he => ho e (List.mem_cons_of_mem _ he))
    exact copy_band_length W H D d hd h_fb _ _ hh (hfb d hd)
      (copy_band_eq W H D d hd h_fb _ hh (hfb d hd))
  | swap a b l =>
    intro h_fb hh
    have hb := ho b (List.mem_cons_self _ _)
    have ha := ho a (List.mem_cons_of_mem _ (List.mem_cons_self _ _))
    rw [assemble_cons, assemble_cons]
    have h := copy_band_comm W H D a b ha hb d_fb h_fb hh (hfb a ha) (hfb b hb)
    have ea : assemble W H D d_fb (a :: l) =
        fun u => (copy_band W H D a u (d_fb a)).bind (assemble W H D d_fb l) :=
      funext fun u => assemble_cons W H D d_fb a l u
    have eb : assemble W H D d_fb (b :: l) =
        fun u => (copy_band W H D b u (d_fb b)).bind (assemble W H D d_fb l) :=
      funext fun u => assemble_cons W H D d_fb b l u
    rw [ea, eb]
    have h2 := congrArg (fun o => Option.bind o (assemble W H D d_fb l)) h
    simp only [Option.bind_assoc] at h2
    exact h2.symm
  | trans p1 _ ih1 ih2 =>
    intro h_fb hh
    rw [ih1 ho h_fb hh]
    exact ih2 (fun d hd => ho d (p1.mem_iff.2 hd)) h_fb hh

theorem assemble_isSome {γ : Type} (W H D : Nat) (d_fb : Nat → List γ)
    (hfb : ∀ d, d < D → (d_fb d).length = private_count W H D d)
    (o : List Nat) (ho : ∀ d ∈ o, d < D) :
    ∀ h_fb : List γ, h_fb.length = W * H → (assemble W H D d_fb o h_fb).isSome = true := by
  induction o with
  | nil => intro h_fb _; rfl
  | cons d l ih =>
    intro h_fb hh
    have hd := ho d (List.mem_cons_self _ _)
    rw [assemble_cons, copy_band_eq W H D d hd h_fb _ hh (hfb d hd)]
    simp only [Option.some_bind]
    apply ih (fun e he => ho e (List.mem_cons_of_mem _ he))
    exact copy_band_length W H D d hd h_fb _ _ hh (hfb d hd)
      (copy_band_eq W H D d hd h_fb _ hh (hfb d hd))

/-! ## The claims on the work split -/

/-- C1, the code at the program's height `ny = 4320` with 7 devices: the rows
that belong to some device's band are exactly the rows below 4319, so row 4319
of the image is in no band and the union of the bands is not `[0, ny)`. -/
theorem band_partition_drops_row :
    (∀ y, (∃ d, d < 7 ∧ in_band ny 7 d y) ↔ y < 4319) ∧ 4319 < ny ∧
      ¬ ∃ d, d < 7 ∧ in_band ny 7 d 4319 := by
  have h : ∀ y, (∃ d, d < 7 ∧ in_band ny 7 d y) ↔ y < 4319 := by
    intro y
    rw [bands_cover_iff]
    have e : 7 * chunk_y ny 7 = 4319 := by decide
    rw [e]
  refine ⟨h, by decide, ?_⟩
  rw [h]
  decide

theorem grid_rows_eight (bt : dim3 × dim3)
    (h : bt ∈ grid_threads (blocks nx ny tx ty 8) (threads tx ty)) :
    thread_j bt.1 bt.2 (threads tx ty) < 536 := by
  rw [mem_grid_threads] at h
  obtain ⟨_, h2, _, h4⟩ := h
  have e1 : (blocks nx ny tx ty 8).y = 67 := by decide
  have e2 : (threads tx ty).y = 8 := rfl
  rw [e1] at h2
  rw [e2] at h4
  unfold thread_j
  rw [e2]
  omega

/-- C2, the code at 8 devices: row 536 of device 0's band is inside the band
(which has 540 rows) but every thread of the launch grid has a row coordinate
below 536, so neither `render_init` nor `render` touches the entry of pixel
`(0, 536)`, at private index `536 * nx + 0`. -/
theorem launch_grid_skips_band_row {α : Type} [LinearOrderedField α] {HitRec S : Type}
    (ci : Nat → Nat → Nat → S) (cu : S → α × S) (gr : α → α → S → ray α × S)
    (hit : ray α → α → α → Option HitRec)
    (sc : ray α → HitRec → S → Option (vec3 α × ray α) × S)
    (uv : vec3 α → vec3 α) (sq : α → α) (bufs : List (vec3 α) × List S) :
    536 < max_y ny 8 0 - min_y ny 8 0 ∧
      ¬ 536 < (blocks nx ny tx ty 8).y * (threads tx ty).y ∧
      (∀ bt ∈ grid_threads (blocks nx ny tx ty 8) (threads tx ty),
        thread_j bt.1 bt.2 (threads tx ty) < 536) ∧
      (launch_render_init ci nx ny tx ty 8 0 bufs.2)[536 * nx + 0]? = bufs.2[536 * nx + 0]? ∧
      (launch_render cu gr hit sc uv sq nx ny tx ty ns 8 0 bufs).1[536 * nx + 0]? =
        bufs.1[536 * nx + 0]? := by
  refine ⟨by decide, by decide, grid_rows_eight, ?_, ?_⟩
  · unfold launch_render_init launch
    apply foldl_invariant (fun s : List S => s[536 * nx + 0]? = bufs.2[536 * nx + 0]?)
    · intro bt hbt s hs
      have hj := grid_rows_eight bt hbt
      by_cases hi : nx ≤ thread_i bt.1 bt.2 (threads tx ty)
      · rw [render_init_inactive _ _ _ _ _ _ _ _ (Or.inl hi)]
        exact hs
      · rw [render_init_other _ _ _ _ _ _ _ _ _ ?_]
        · exact hs
        · have hn : nx = 7680 := rfl
          rw [hn] at hi ⊢
          omega
    · rfl
  · unfold launch_render launch
    apply foldl_invariant
      (fun s : List (vec3 α) × List S => s.1[536 * nx + 0]? = bufs.1[536 * nx + 0]?)
    · intro bt hbt s hs
      have hj := grid_rows_eight bt hbt
      by_cases hi : nx ≤ thread_i bt.1 bt.2 (threads tx ty)
      · rw [render_inactive _ _ _ _ _ _ _ _ _ _ _ _ _ _ (Or.inl hi)]
        exact hs
      · rw [render_other _ _ _ _ _ _ _ _ _ _ _ _ _ _ _ ?_]
        · exact hs
        · have hn : nx = 7680 := rfl
          rw [hn] at hi ⊢
          omega
    · rfl

/-- C6: a thread of `render` whose pixel `(i, j)` lies in the band of device `d`
stores its colour at private index `j * W + i`; the copy of the device's
`W * (max_y - min_y)` entries to `h_fb + min_y * W` succeeds and puts that colour
at shared index `(j + min_y) * W + i`; the copied range ends at `max_y * W`,
inside the `W * H` entries of the shared framebuffer. -/
theorem copy_band_places_pixel {α : Type} [LinearOrderedField α] {HitRec S : Type}
    (cu : S → α × S) (gr : α → α → S → ray α × S)
    (hit : ray α → α → α → Option HitRec)
    (sc : ray α → HitRec → S → Option (vec3 α × ray α) × S)
    (uv : vec3 α → vec3 α) (sq : α → α) (n W H D d : Nat) (hd : d < D)
    (b t bd : dim3) (hi : thread_i b t bd < W)
    (hj : thread_j b t bd < max_y H D d - min_y H D d)
    (bufs : List (vec3 α) × List S)
    (hb1 : bufs.1.length = private_count W H D d)
    (hb2 : bufs.2.length = private_count W H D d)
    (h_fb : List (vec3 α)) (hh : h_fb.length = W * H) :
    ∃ st h_fb1,
      bufs.2[thread_j b t bd * W + thread_i b t bd]? = some st ∧
      (render cu gr hit sc uv sq (min_y H D d) W (max_y H D d) n b t bd bufs).1[
          thread_j b t bd * W + thread_i b t bd]? =
        some (render_pixel cu gr hit sc uv sq (thread_i b t bd) (thread_j b t bd)
          (min_y H D d) W (max_y H D d) n st).1 ∧
      copy_band W H D d h_fb
          (render cu gr hit sc uv sq (min_y H D d) W (max_y H D d) n b t bd bufs).1 =
        some h_fb1 ∧
      h_fb1[(thread_j b t bd + min_y H D d) * W + thread_i b t bd]? =
        some (render_pixel cu gr hit sc uv sq (thread_i b t bd) (thread_j b t bd)
          (min_y H D d) W (max_y H D d) n st).1 ∧
      min_y H D d * W + private_count W H D d = max_y H D d * W ∧
      max_y H D d * W ≤ W * H := by
  have hL : thread_j b t bd * W + thread_i b t bd < private_count W H D d :=
    local_index_lt W _ _ _ hi hj
  have hend := band_range_end W H D d hd
  have hle := band_range_le W H D d
  have hst : ∃ st, bufs.2[thread_j b t bd * W + thread_i b t bd]? = some st :=
    ⟨bufs.2[thread_j b t bd * W + thread_i b t bd], List.getElem?_eq_getElem (by omega)⟩
  obtain ⟨st, hst⟩ := hst
  have hr : render cu gr hit sc uv sq (min_y H D d) W (max_y H D d) n b t bd bufs =
      (bufs.1.set (thread_j b t bd * W + thread_i b t bd)
          (render_pixel cu gr hit sc uv sq (thread_i b t bd) (thread_j b t bd)
            (min_y H D d) W (max_y H D d) n st).1,
        bufs.2.set (thread_j b t bd * W + thread_i b t bd)
          (render_pixel cu gr hit sc uv sq (thread_i b t bd) (thread_j b t bd)
            (min_y H D d) W (max_y H D d) n st).2) := by
    unfold render
    simp only
    rw [if_neg (by omega), hst]
  have key : ∀ col : vec3 α, ∃ h_fb1,
      (bufs.1.set (thread_j b t bd * W + thread_i b t bd) col)[
        thread_j b t bd * W + thread_i b t bd]? = some col ∧
      copy_band W H D d h_fb (bufs.1.set (thread_j b t bd * W + thread_i b t bd) col) =
        some h_fb1 ∧
      h_fb1[(thread_j b t bd + min_y H D d) * W + thread_i b t bd]? = some col := by
    intro col
    have hget : (bufs.1.set (thread_j b t bd * W + thread_i b t bd) col)[
        thread_j b t bd * W + thread_i b t bd]? = some col := by
      rw [List.getElem?_set_self (by omega)]
    have hlen : (bufs.1.set (thread_j b t bd * W + thread_i b t bd) col).length =
        private_count W H D d := by
      rw [List.length_set]; exact hb1
    refine ⟨_, hget, copy_band_eq W H D d hd h_fb _ hh hlen, ?_⟩
    rw [getElem?_splice _ _ _ _ _ (by omega) (by omega),
      if_neg (by rw [Nat.add_mul]; omega), if_pos (by rw [Nat.add_mul]; omega)]
    have e : (thread_j b t bd + min_y H D d) * W + thread_i b t bd - min_y H D d * W =
        thread_j b t bd * W + thread_i b t bd := by
      rw [Nat.add_mul]; omega
    rw [e]
    exact hget
  rw [hr]
  obtain ⟨h_fb1, k1, k2, k3⟩ := key (render_pixel cu gr hit sc uv sq (thread_i b t bd)
    (thread_j b t bd) (min_y H D d) W (max_y H D d) n st).1
  exact ⟨st, h_fb1, hst, k1, k2, k3, hend, hle⟩

/-- C7: the row bands of two distinct devices share no row and the index
ranges `[min_y * W, max_y * W)` they copy to share no index; the copy of one
device succeeds and leaves the entries of every other device's range as they
were; and the assembled framebuffer is defined and the same for every order in
which the devices perform their copies. -/
theorem bands_write_disjoint {γ : Type} (W H D : Nat) (d_fb : Nat → List γ)
    (hfb : ∀ d, d < D → (d_fb d).length = private_count W H D d) :
    (∀ d e, d < D → e < D → d ≠ e → ∀ y, ¬ (in_band H D d y ∧ in_band H D e y)) ∧
    (∀ d e, d < D → e < D → d ≠ e → ∀ k,
      ¬ ((min_y H D d * W ≤ k ∧ k < max_y H D d * W) ∧
          (min_y H D e * W ≤ k ∧ k < max_y H D e * W))) ∧
    (∀ d e, d < D → e < D → d ≠ e → ∀ h_fb : List γ, h_fb.length = W * H →
      ∃ h_fb1, copy_band W H D d h_fb (d_fb d) = some h_fb1 ∧
        ∀ k, min_y H D e * W ≤ k → k < max_y H D e * W → h_fb1[k]? = h_fb[k]?) ∧
    (∀ o1 o2 : List Nat, o1.Perm o2 → (∀ d ∈ o1, d < D) →
      ∀ h_fb : List γ, h_fb.length = W * H →
        (assemble W H D d_fb o1 h_fb).isSome = true ∧
          assemble W H D d_fb o1 h_fb = assemble W H D d_fb o2 h_fb) := by
  refine ⟨?_, ?_, ?_, ?_⟩
  · intro d e hd he hne y hy
    exact hne (band_unique H D d e y hd he hy.1 hy.2)
  · intro d e hd he hne k hk
    rcases band_ranges_apart W H D d e hd he hne with h | h <;> omega
  · intro d e hd he hne h_fb hh
    refine ⟨_, copy_band_eq W H D d hd h_fb _ hh (hfb d hd), ?_⟩
    intro k hk1 hk2
    have hend := band_range_end W H D d hd
    have hle := band_range_le W H D d
    rw [getElem?_splice _ _ _ _ _ (by omega) (by rw [hfb d hd])]
    rcases band_ranges_apart W H D d e hd he hne with h | h
    · rw [if_neg (by omega), if_neg (by omega)]
    · rw [if_pos (by omega)]
  · intro o1 o2 hp ho h_fb hh
    exact ⟨assemble_isSome W H D d_fb hfb o1 ho h_fb hh,
      assemble_perm W H D d_fb hfb o1 o2 hp ho h_fb hh⟩

theorem pixel_index_inj (W x y x' y' : Nat) (hx : x < W) (hx' : x' < W)
    (h : pixel_index W x y = pixel_index W x' y') : x = x' ∧ y = y' := by
  unfold pixel_index at h
  have h1 : (y * W + x) % W = x := by
    rw [Nat.add_comm, Nat.add_mul_mod_self_right, Nat.mod_eq_of_lt hx]
  have h2 : (y' * W + x') % W = x' := by
    rw [Nat.add_comm, Nat.add_mul_mod_self_right, Nat.mod_eq_of_lt hx']
  have hxx : x = x' := by rw [← h1, ← h2, h]
  subst hxx
  refine ⟨rfl, ?_⟩
  have hW : 0 < W := by omega
  have h3 : y * W = y' * W := by omega
  exact Nat.eq_of_mul_eq_mul_right hW h3

/-- C8: a thread of `render_init` whose pixel `(i, j)` lies in the band of
device `d` stores at private index `j * W + i` the state initialised with seed
1984, sequence number `(j + min_y) * W + i` and offset 0; that sequence number
is `pixel_index W x y` for the pixel's global coordinates `x = i` and
`y = j + min_y`, a function of `(W, x, y)` alone, and `pixel_index W` is
injective on the pixels with `x < W`. -/
theorem render_init_stream {S : Type} (ci : Nat → Nat → Nat → S) (W H D d : Nat)
    (b t bd : dim3) (hi : thread_i b t bd < W)
    (hj : thread_j b t bd < max_y H D d - min_y H D d)
    (rs : List S) (hlen : rs.length = private_count W H D d) :
    (render_init ci (min_y H D d) W (max_y H D d) b t bd rs)[
        thread_j b t bd * W + thread_i b t bd]? =
      some (ci 1984 ((thread_j b t bd + min_y H D d) * W + thread_i b t bd) 0) ∧
    (thread_j b t bd + min_y H D d) * W + thread_i b t bd =
      pixel_index W (thread_i b t bd) (thread_j b t bd + min_y H D d) ∧
    (∀ k, k ≠ thread_j b t bd * W + thread_i b t bd →
      (render_init ci (min_y H D d) W (max_y H D d) b t bd rs)[k]? = rs[k]?) ∧
    (∀ x y x' y', x < W → x' < W → pixel_index W x y = pixel_index W x' y' →
      x = x' ∧ y = y') := by
  have hL : thread_j b t bd * W + thread_i b t bd < private_count W H D d :=
    local_index_lt W _ _ _ hi hj
  refine ⟨?_, rfl, ?_, ?_⟩
  · unfold render_init
    simp only
    rw [if_neg (by omega), List.getElem?_set_self (by omega)]
  · intro k hk
    exact render_init_other ci _ W _ b t bd rs k hk
  · intro x y x' y' hx hx' h
    exact pixel_index_inj W x y x' y' hx hx' h

/-! ## The bounce loop -/

section ColorLemmas

variable {α : Type} [LinearOrderedField α] {HitRec S : Type}

theorem inUnit_zero : (⟨0, 0, 0⟩ : vec3 α).InUnit := by
  unfold vec3.InUnit
  simp

theorem inUnit_one : (⟨1, 1, 1⟩ : vec3 α).InUnit := by
  unfold vec3.InUnit
  simp

theorem inUnit_mul (a b : vec3 α) (ha : a.InUnit) (hb : b.InUnit) :
    (vec3.mul a b).InUnit := by
  obtain ⟨⟨a1, a2⟩, ⟨a3, a4⟩, a5, a6⟩ := ha
  obtain ⟨⟨b1, b2⟩, ⟨b3, b4⟩, b5, b6⟩ := hb
  unfold vec3.InUnit vec3.mul
  exact ⟨⟨mul_nonneg a1 b1, mul_le_one₀ a2 b1 b2⟩, ⟨mul_nonneg a3 b3, mul_le_one₀ a4 b3 b4⟩,
    mul_nonneg a5 b5, mul_le_one₀ a6 b5 b6⟩

theorem inUnit_sky (uv : vec3 α → vec3 α) (dir : vec3 α)
    (h1 : -1 ≤ (uv dir).y) (h2 : (uv dir).y ≤ 1) : (sky uv dir).InUnit := by
  unfold vec3.InUnit sky vec3.add vec3.scale
  simp only
  refine ⟨⟨?_, ?_⟩, ⟨?_, ?_⟩, ?_, ?_⟩ <;> linarith

theorem color_loop_zero (hit : ray α → α → α → Option HitRec)
    (sc : ray α → HitRec → S → Option (vec3 α × ray α) × S) (uv : vec3 α → vec3 α)
    (r : ray α) (att : vec3 α) (st : S) :
    color_loop hit sc uv 0 r att st = (⟨0, 0, 0⟩, st, []) := by
  rw [color_loop]

theorem color_loop_miss (hit : ray α → α → α → Option HitRec)
    (sc : ray α → HitRec → S → Option (vec3 α × ray α) × S) (uv : vec3 α → vec3 α)
    (n : Nat) (r : ray α) (att : vec3 α) (st : S)
    (h : hit r (1 / 1000) (FLT_MAX : α) = none) :
    color_loop hit sc uv (n + 1) r att st = (vec3.mul att (sky uv r.direction), st, [r]) := by
  rw [color_loop, h]

theorem color_loop_absorb (hit : ray α → α → α → Option HitRec)
    (sc : ray α → HitRec → S → Option (vec3 α × ray α) × S) (uv : vec3 α → vec3 α)
    (n : Nat) (r : ray α) (att : vec3 α) (st st1 : S) (rec : HitRec)
    (h : hit r (1 / 1000) (FLT_MAX : α) = some rec) (h2 : sc r rec st = (none, st1)) :
    color_loop hit sc uv (n + 1) r att st = (⟨0, 0, 0⟩, st1, [r]) := by
  rw [color_loop, h]
  simp only
  rw [h2]

theorem color_loop_scatter (hit : ray α → α → α → Option HitRec)
    (sc : ray α → HitRec → S → Option (vec3 α × ray α) × S) (uv : vec3 α → vec3 α)
    (n : Nat) (r r1 : ray α) (att a : vec3 α) (st st1 : S) (rec : HitRec)
    (h : hit r (1 / 1000) (FLT_MAX : α) = some rec)
    (h2 : sc r rec st = (some (a, r1), st1)) :
    color_loop hit sc uv (n + 1) r att st =
      ((color_loop hit sc uv n r1 (vec3.mul att a) st1).1,
        (color_loop hit sc uv n r1 (vec3.mul att a) st1).2.1,
        r :: (color_loop hit sc uv n r1 (vec3.mul att a) st1).2.2) := by
  rw [color_loop, h]
  simp only
  rw [h2]

/-- The three ways one iteration of the loop can go. -/
theorem color_loop_cases (hit : ray α → α → α → Option HitRec)
    (sc : ray α → HitRec → S → Option (vec3 α × ray α) × S)
    (r : ray α) (st : S) :
    hit r (1 / 1000) (FLT_MAX : α) = none ∨
    (∃ rec st1, hit r (1 / 1000) (FLT_MAX : α) = some rec ∧ sc r rec st = (none, st1)) ∨
    (∃ rec a r1 st1, hit r (1 / 1000) (FLT_MAX : α) = some rec ∧
      sc r rec st = (some (a, r1), st1)) := by
  cases h : hit r (1 / 1000) (FLT_MAX : α) with
  | none => exact Or.inl rfl
  | some rec =>
    right
    rcases h2 : sc r rec st with ⟨_ | ⟨a, r1⟩, st1⟩
    · exact Or.inl ⟨rec, st1, rfl, h2⟩
    · exact Or.inr ⟨rec, a, r1, st1, rfl, h2⟩

theorem color_loop_inUnit (hit : ray α → α → α → Option HitRec)
    (sc : ray α → HitRec → S → Option (vec3 α × ray α) × S) (uv : vec3 α → vec3 α)
    (hsc : ∀ r rec st a r1 st1, sc r rec st = (some (a, r1), st1) → a.InUnit)
    (hy : ∀ r : ray α, hit r (1 / 1000) (FLT_MAX : α) = none →
      -1 ≤ (uv r.direction).y ∧ (uv r.direction).y ≤ 1)
    (n : Nat) : ∀ (r : ray α) (att : vec3 α) (st : S), att.InUnit →
      (color_loop hit sc uv n r att st).1.InUnit := by
  induction n with
  | zero =>
    intro r att st _
    rw [color_loop_zero]
    exact inUnit_zero
  | succ n ih =>
    intro r att st hatt
    rcases color_loop_cases hit sc r st with h | ⟨rec, st1, h, h2⟩ | ⟨rec, a, r1, st1, h, h2⟩
    · rw [color_loop_miss hit sc uv n r att st h]
      exact inUnit_mul _ _ hatt (inUnit_sky uv _ (hy r h).1 (hy r h).2)
    · rw [color_loop_absorb hit sc uv n r att st st1 rec h h2]
      exact inUnit_zero
    · rw [color_loop_scatter hit sc uv n r r1 att a st st1 rec h h2]
      exact ih r1 _ st1 (inUnit_mul _ _ hatt (hsc r rec st a r1 st1 h2))

theorem color_loop_queries_le (hit : ray α → α → α → Option HitRec)
    (sc : ray α → HitRec → S → Option (vec3 α × ray α) × S) (uv : vec3 α → vec3 α)
    (n : Nat) : ∀ (r : ray α) (att : vec3 α) (st : S),
      (color_loop hit sc uv n r att st).2.2.length ≤ n := by
  induction n with
  | zero =>
    intro r att st
    rw [color_loop_zero]
    exact Nat.le_refl _
  | succ n ih =>
    intro r att st
    rcases color_loop_cases hit sc r st with h | ⟨rec, st1, h, h2⟩ | ⟨rec, a, r1, st1, h, h2⟩
    · rw [color_loop_miss hit sc uv n r att st h]
      simp
    · rw [color_loop_absorb hit sc uv n r att st st1 rec h h2]
      simp
    · rw [color_loop_scatter hit sc uv n r r1 att a st st1 rec h h2]
      simp only [List.length_cons]
      exact Nat.succ_le_succ (ih r1 _ st1)

theorem bounces_succ (hit : ray α → α → α → Option HitRec)
    (sc : ray α → HitRec → S → Option (vec3 α × ray α) × S)
    (k : Nat) (r : ray α) (st : S) (q : Path α S)
    (h : bounces hit sc (k + 1) r st = some q) :
    ∃ p rec a r1 st1, bounces hit sc k r st = some p ∧
      hit p.current (1 / 1000) (FLT_MAX : α) = some rec ∧
      sc p.current rec p.rand = (some (a, r1), st1) ∧
      q = ⟨p.attenuations ++ [a], p.tested ++ [p.current], r1, st1⟩ := by
  rw [bounces] at h
  cases hp : bounces hit sc k r st with
  | none => rw [hp] at h; cases h
  | some p =>
    rw [hp] at h
    simp only at h
    rcases color_loop_cases hit sc p.current p.rand with
      h1 | ⟨rec, st1, h1, h2⟩ | ⟨rec, a, r1, st1, h1, h2⟩
    · rw [h1] at h; cases h
    · rw [h1] at h
      simp only at h
      rw [h2] at h
      cases h
    · rw [h1] at h
      simp only at h
      rw [h2] at h
      simp only [Option.some.injEq] at h
      exact ⟨p, rec, a, r1, st1, rfl, h1, h2, h.symm⟩

theorem bounces_length (hit : ray α → α → α → Option HitRec)
    (sc : ray α → HitRec → S → Option (vec3 α × ray α) × S)
    (k : Nat) : ∀ (r : ray α) (st : S) (p : Path α S), bounces hit sc k r st = some p →
      p.attenuations.length = k ∧ p.tested.length = k := by
  induction k with
  | zero =>
    intro r st p h
    rw [bounces] at h
    cases h
    exact ⟨rfl, rfl⟩
  | succ k ih =>
    intro r st q h
    obtain ⟨p, rec, a, r1, st1, hp, _, _, hq⟩ := bounces_succ hit sc k r st q h
    subst hq
    obtain ⟨e1, e2⟩ := ih r st p hp
    simp [e1, e2]

/-- After `k` steps that hit and scatter the loop continues from the ray of
the last scatter with the accumulated attenuation. -/
theorem color_loop_bounces (hit : ray α → α → α → Option HitRec)
    (sc : ray α → HitRec → S → Option (vec3 α × ray α) × S) (uv : vec3 α → vec3 α)
    (k : Nat) : ∀ (n : Nat) (r : ray α) (att : vec3 α) (st : S) (p : Path α S),
      bounces hit sc k r st = some p →
      color_loop hit sc uv (k + n) r att st =
        ((color_loop hit sc uv n p.current (p.attenuations.foldl vec3.mul att) p.rand).1,
          (color_loop hit sc uv n p.current (p.attenuations.foldl vec3.mul att) p.rand).2.1,
          p.tested ++
            (color_loop hit sc uv n p.current (p.attenuations.foldl vec3.mul att) p.rand).2.2) := by
  induction k with
  | zero =>
    intro n r att st p h
    rw [bounces] at h
    cases h
    simp
  | succ k ih =>
    intro n r att st q h
    obtain ⟨p, rec, a, r1, st1, hp, h1, h2, hq⟩ := bounces_succ hit sc k r st q h
    subst hq
    have e : k + 1 + n = k + (n + 1) := by omega
    rw [e, ih (n + 1) r att st p hp,
      color_loop_scatter hit sc uv n p.current r1 _ a p.rand st1 rec h1 h2]
    simp [List.foldl_append]

end ColorLemmas

/-! ## The claims on `color` -/

/-- C3: when every attenuation returned by `scatter` has its three channels in
`[0, 1]` and the normalised direction of every ray that misses the world has
its `y` component in `[-1, 1]`, every channel of the colour returned by `color`
lies in `[0, 1]`, for every primary ray and random state. -/
theorem color_energy_bound {α : Type} [LinearOrderedField α] {HitRec S : Type}
    (hit : ray α → α → α → Option HitRec)
    (sc : ray α → HitRec → S → Option (vec3 α × ray α) × S) (uv : vec3 α → vec3 α)
    (hsc : ∀ r rec st a r1 st1, sc r rec st = (some (a, r1), st1) → a.InUnit)
    (hy : ∀ r : ray α, hit r (1 / 1000) (FLT_MAX : α) = none →
      -1 ≤ (uv r.direction).y ∧ (uv r.direction).y ≤ 1)
    (r : ray α) (st : S) : (color hit sc uv r st).1.InUnit := by
  unfold color color_trace
  exact color_loop_inUnit hit sc uv hsc hy 50 r _ st inUnit_one

/-- The bound of C3 on the ground-plane scene with the grey material. -/
theorem color_energy_bound_witness :
    (color ground_hit grey_scatter axis_unit_vector down_ray 0).1.InUnit := by
  apply color_energy_bound
  · intro r rec st a r1 st1 h
    unfold grey_scatter at h
    simp only [Prod.mk.injEq, Option.some.injEq] at h
    rw [← h.1.1]
    unfold vec3.InUnit
    norm_num
  · intro r _
    unfold axis_unit_vector
    simp only
    split <;> norm_num

/-- C5: `color` is a total function that tests at most 50 rays against the
world; when the path hits and scatters at its first `k < 50` steps and the
material struck at the next step refuses to scatter, `color` returns
`(0, 0, 0)` after testing `k + 1` rays; when the path hits and scatters at all
of its first 50 steps, `color` returns `(0, 0, 0)` after testing exactly the 50
rays of these steps, the ray produced by the 50th scatter not being tested. -/
theorem color_bounce_budget {α : Type} [LinearOrderedField α] {HitRec S : Type}
    (hit : ray α → α → α → Option HitRec)
    (sc : ray α → HitRec → S → Option (vec3 α × ray α) × S) (uv : vec3 α → vec3 α)
    (r : ray α) (st : S) :
    (color_trace hit sc uv r st).2.2.length ≤ 50 ∧
    (∀ k p rec st1, k < 50 → bounces hit sc k r st = some p →
      hit p.current (1 / 1000) (FLT_MAX : α) = some rec →
      sc p.current rec p.rand = (none, st1) →
      color hit sc uv r st = (⟨0, 0, 0⟩, st1) ∧
        (color_trace hit sc uv r st).2.2 = p.tested ++ [p.current] ∧
        (color_trace hit sc uv r st).2.2.length = k + 1) ∧
    (∀ p, bounces hit sc 50 r st = some p →
      color hit sc uv r st = (⟨0, 0, 0⟩, p.rand) ∧
        (color_trace hit sc uv r st).2.2 = p.tested ∧
        (color_trace hit sc uv r st).2.2.length = 50) := by
  refine ⟨color_loop_queries_le hit sc uv 50 r _ st, ?_, ?_⟩
  · intro k p rec st1 hk hb h1 h2
    obtain ⟨n, hn⟩ : ∃ n, 50 = k + (n + 1) := ⟨49 - k, by omega⟩
    have e : color_trace hit sc uv r st = (⟨0, 0, 0⟩, st1, p.tested ++ [p.current]) := by
      unfold color_trace
      rw [hn, color_loop_bounces hit sc uv k (n + 1) r _ st p hb,
        color_loop_absorb hit sc uv n p.current _ p.rand st1 rec h1 h2]
    refine ⟨?_, ?_, ?_⟩
    · unfold color
      rw [e]
    · rw [e]
    · rw [e]
      simp [(bounces_length hit sc k r st p hb).2]
  · intro p hb
    have e : color_trace hit sc uv r st = (⟨0, 0, 0⟩, p.rand, p.tested) := by
      unfold color_trace
      have h50 : 50 = 50 + 0 := rfl
      rw [h50, color_loop_bounces hit sc uv 50 0 r _ st p hb, color_loop_zero]
      simp
    refine ⟨?_, ?_, ?_⟩
    · unfold color
      rw [e]
    · rw [e]
    · rw [e]
      exact (bounces_length hit sc 50 r st p hb).2

/-- The budget of C5 on a closed box with the grey material: all 50 steps hit
and scatter, 50 draws are made and the path is black. -/
theorem color_bounce_budget_witness :
    color box_hit grey_scatter axis_unit_vector down_ray 0 = (⟨0, 0, 0⟩, 50) ∧
      (color_trace box_hit grey_scatter axis_unit_vector down_ray 0).2.2.length = 50 := by
  have h : ∃ p, bounces box_hit grey_scatter 50 down_ray 0 = some p ∧ p.rand = 50 :=
    ⟨_, rfl, rfl⟩
  obtain ⟨p, hp, hr⟩ := h
  have h2 := (color_bounce_budget box_hit grey_scatter axis_unit_vector down_ray 0).2.2 p hp
  rw [hr] at h2
  exact ⟨h2.1, h2.2.2⟩

/-! ## The claim on the camera coordinates -/

theorem color_loop_logged {α : Type} [LinearOrderedField α] {HitRec S : Type}
    (hit : ray α → α → α → Option HitRec)
    (sc : ray α → HitRec → S → Option (vec3 α × ray α) × S) (uv : vec3 α → vec3 α)
    (n : Nat) : ∀ (r : ray α) (att : vec3 α) (s : S) (log : List (α × α × S)),
      color_loop hit (logged_scatter sc) uv n r att (s, log) =
        ((color_loop hit sc uv n r att s).1, ((color_loop hit sc uv n r att s).2.1, log),
          (color_loop hit sc uv n r att s).2.2) := by
  induction n with
  | zero =>
    intro r att s log
    rw [color_loop_zero, color_loop_zero]
  | succ n ih =>
    intro r att s log
    rcases color_loop_cases hit sc r s with h | ⟨rec, st1, h, h2⟩ | ⟨rec, a, r1, st1, h, h2⟩
    · rw [color_loop_miss hit (logged_scatter sc) uv n r att (s, log) h,
        color_loop_miss hit sc uv n r att s h]
    · have h3 : logged_scatter sc r rec (s, log) = (none, (st1, log)) := by
        unfold logged_scatter
        rw [h2]
      rw [color_loop_absorb hit (logged_scatter sc) uv n r att (s, log) (st1, log) rec h h3,
        color_loop_absorb hit sc uv n r att s st1 rec h h2]
    · have h3 : logged_scatter sc r rec (s, log) = (some (a, r1), (st1, log)) := by
        unfold logged_scatter
        rw [h2]
      rw [color_loop_scatter hit (logged_scatter sc) uv n r r1 att a (s, log) (st1, log) rec
          h h3,
        color_loop_scatter hit sc uv n r r1 att a s st1 rec h h2, ih]

theorem color_logged {α : Type} [LinearOrderedField α] {HitRec S : Type}
    (hit : ray α → α → α → Option HitRec)
    (sc : ray α → HitRec → S → Option (vec3 α × ray α) × S) (uv : vec3 α → vec3 α)
    (r : ray α) (s : S) (log : List (α × α × S)) :
    color hit (logged_scatter sc) uv r (s, log) =
      ((color hit sc uv r s).1, ((color hit sc uv r s).2, log)) := by
  unfold color color_trace
  rw [color_loop_logged]

/-- The sample loop run with the routines that write down the calls of
`get_ray`: colour and random state are those of the plain run, and the list
grows by one call per sample, with the coordinates of lines 87-88. -/
theorem render_samples_logged {α : Type} [LinearOrderedField α] {HitRec S : Type}
    (cu : S → α × S) (gr : α → α → S → ray α × S)
    (hit : ray α → α → α → Option HitRec)
    (sc : ray α → HitRec → S → Option (vec3 α × ray α) × S) (uv : vec3 α → vec3 α)
    (hcu : ∀ s, 0 < (cu s).1 ∧ (cu s).1 ≤ 1)
    (i j lo W hi : Nat) (hi1 : i < W) (hj : j < hi - lo) (n : Nat) :
    ∀ (col : vec3 α) (st : S) (log : List (α × α × S)),
      ∃ calls : List (α × α × S),
        render_samples (logged_uniform cu) (logged_get_ray gr) hit (logged_scatter sc) uv
            i j lo W hi n col (st, log) =
          ((render_samples cu gr hit sc uv i j lo W hi n col st).1,
            ((render_samples cu gr hit sc uv i j lo W hi n col st).2, log ++ calls)) ∧
        calls.length = n ∧
        (∀ c, calls[0]? = some c →
          c = (((i : α) + (cu st).1) / (W : α),
            (((j + lo : Nat) : α) + (cu (cu st).2).1) / (hi : α), (cu (cu st).2).2)) ∧
        (∀ c ∈ calls, ∃ s1 : S,
          c = (((i : α) + (cu s1).1) / (W : α),
            (((j + lo : Nat) : α) + (cu (cu s1).2).1) / (hi : α), (cu (cu s1).2).2) ∧
          (0 < c.1 ∧ c.1 ≤ 1) ∧ (0 < c.2.1 ∧ c.2.1 ≤ 1)) := by
  have hWpos : (0 : α) < (W : α) := by
    have : 0 < W := by omega
    exact_mod_cast this
  have hHpos : (0 : α) < (hi : α) := by
    have : 0 < hi := by omega
    exact_mod_cast this
  have hiW : (i : α) + 1 ≤ (W : α) := by
    have : i + 1 ≤ W := by omega
    exact_mod_cast this
  have hjH : ((j + lo : Nat) : α) + 1 ≤ (hi : α) := by
    have : (j + lo) + 1 ≤ hi := by omega
    exact_mod_cast this
  have hi0 : (0 : α) ≤ (i : α) := Nat.cast_nonneg i
  have hj0 : (0 : α) ≤ ((j + lo : Nat) : α) := Nat.cast_nonneg _
  induction n with
  | zero =>
    intro col st log
    refine ⟨[], ?_, rfl, ?_, ?_⟩
    · rw [render_samples, render_samples, List.append_nil]
    · intro c hc
      simp at hc
    · intro c hc
      simp at hc
  | succ n ih =>
    intro col st log
    obtain ⟨a1, a2⟩ := hcu st
    obtain ⟨b1, b2⟩ := hcu (cu st).2
    obtain ⟨calls, e1, e2, _, e4⟩ := ih
      (vec3.add col (color hit sc uv
        (gr (((i : α) + (cu st).1) / (W : α))
          ((((j + lo : Nat) : α) + (cu (cu st).2).1) / (hi : α)) (cu (cu st).2).2).1
        (gr (((i : α) + (cu st).1) / (W : α))
          ((((j + lo : Nat) : α) + (cu (cu st).2).1) / (hi : α)) (cu (cu st).2).2).2).1)
      (color hit sc uv
        (gr (((i : α) + (cu st).1) / (W : α))
          ((((j + lo : Nat) : α) + (cu (cu st).2).1) / (hi : α)) (cu (cu st).2).2).1
        (gr (((i : α) + (cu st).1) / (W : α))
          ((((j + lo : Nat) : α) + (cu (cu st).2).1) / (hi : α)) (cu (cu st).2).2).2).2
      (log ++ [(((i : α) + (cu st).1) / (W : α),
        (((j + lo : Nat) : α) + (cu (cu st).2).1) / (hi : α), (cu (cu st).2).2)])
    refine ⟨(((i : α) + (cu st).1) / (W : α),
      (((j + lo : Nat) : α) + (cu (cu st).2).1) / (hi : α), (cu (cu st).2).2) :: calls,
      ?_, by rw [List.length_cons, e2], ?_, ?_⟩
    · rw [render_samples, render_samples]
      simp only [logged_uniform, logged_get_ray, color_logged]
      rw [e1, List.append_assoc, List.singleton_append]
    · intro c hc
      simp only [List.getElem?_cons_zero, Option.some.injEq] at hc
      exact hc.symm
    · intro c hc
      rcases List.mem_cons.1 hc with hc | hc
      · subst hc
        refine ⟨st, rfl, ⟨?_, ?_⟩, ?_, ?_⟩
        · exact div_pos (by linarith) hWpos
        · rw [div_le_one hWpos]; linarith
        · exact div_pos (by linarith) hHpos
        · rw [div_le_one hHpos]; linarith
      · exact e4 c hc

/-- C10: for a thread of `render` whose pixel `(i, j)` lies in a band
`[min_y, max_y)` of an image of width `W`, with every random draw in `(0, 1]`:
run with the routines that write down the calls of `get_ray`, the kernel
computes the same colour and random states as with the plain routines, and the
calls it adds for this pixel are one per sample, each with
`u = (i + r1) / W` and `v = (j + min_y + r2) / max_y`, where `r1` and `r2` are
two successive draws of `curand_uniform` and the random state passed is the one
left by the second draw (the first call draws from the state stored at
`rand_state[j * W + i]`); both `u` and `v` lie in `(0, 1]`. -/
theorem render_coordinates_normalised {α : Type} [LinearOrderedField α] {HitRec S : Type}
    (cu : S → α × S) (gr : α → α → S → ray α × S)
    (hit : ray α → α → α → Option HitRec)
    (sc : ray α → HitRec → S → Option (vec3 α × ray α) × S) (uv : vec3 α → vec3 α)
    (sq : α → α) (hcu : ∀ s, 0 < (cu s).1 ∧ (cu s).1 ≤ 1)
    (min_y W max_y n : Nat) (b t bd : dim3) (hi : thread_i b t bd < W)
    (hj : thread_j b t bd < max_y - min_y)
    (bufs : List (vec3 α) × List (S × List (α × α × S))) (st : S)
    (log : List (α × α × S))
    (hst : bufs.2[thread_j b t bd * W + thread_i b t bd]? = some (st, log)) :
    ∃ calls : List (α × α × S),
      ((render (logged_uniform cu) (logged_get_ray gr) hit (logged_scatter sc) uv sq
          min_y W max_y n b t bd bufs).2[thread_j b t bd * W + thread_i b t bd]?).map
        Prod.snd = some (log ++ calls) ∧
      calls.length = n ∧
      (∀ c, calls[0]? = some c →
        c = (((thread_i b t bd : α) + (cu st).1) / (W : α),
          (((thread_j b t bd + min_y : Nat) : α) + (cu (cu st).2).1) / (max_y : α),
          (cu (cu st).2).2)) ∧
      (∀ c ∈ calls, ∃ s1 : S,
        c = (((thread_i b t bd : α) + (cu s1).1) / (W : α),
          (((thread_j b t bd + min_y : Nat) : α) + (cu (cu s1).2).1) / (max_y : α),
          (cu (cu s1).2).2) ∧
        (0 < c.1 ∧ c.1 ≤ 1) ∧ (0 < c.2.1 ∧ c.2.1 ≤ 1)) ∧
      (render (logged_uniform cu) (logged_get_ray gr) hit (logged_scatter sc) uv sq
          min_y W max_y n b t bd bufs).1 =
        (render cu gr hit sc uv sq min_y W max_y n b t bd
          (bufs.1, bufs.2.map Prod.fst)).1 ∧
      (render (logged_uniform cu) (logged_get_ray gr) hit (logged_scatter sc) uv sq
          min_y W max_y n b t bd bufs).2.map Prod.fst =
        (render cu gr hit sc uv sq min_y W max_y n b t bd
          (bufs.1, bufs.2.map Prod.fst)).2 := by
  obtain ⟨calls, e1, e2, e3, e4⟩ := render_samples_logged cu gr hit sc uv hcu
    (thread_i b t bd) (thread_j b t bd) min_y W max_y hi hj n ⟨0, 0, 0⟩ st log
  have hlt : thread_j b t bd * W + thread_i b t bd < bufs.2.length := by
    by_contra hge
    rw [List.getElem?_eq_none (by omega)] at hst
    cases hst
  have hst2 : (bufs.2.map Prod.fst)[thread_j b t bd * W + thread_i b t bd]? = some st := by
    rw [List.getElem?_map, hst]
    rfl
  have hl : render (logged_uniform cu) (logged_get_ray gr) hit (logged_scatter sc) uv sq
      min_y W max_y n b t bd bufs =
      (bufs.1.set (thread_j b t bd * W + thread_i b t bd)
          (render_pixel cu gr hit sc uv sq (thread_i b t bd) (thread_j b t bd)
            min_y W max_y n st).1,
        bufs.2.set (thread_j b t bd * W + thread_i b t bd)
          ((render_pixel cu gr hit sc uv sq (thread_i b t bd) (thread_j b t bd)
            min_y W max_y n st).2, log ++ calls)) := by
    unfold render
    simp only
    rw [if_neg (by omega), hst]
    simp only
    unfold render_pixel
    simp only
    rw [e1]
  have hp : render cu gr hit sc uv sq min_y W max_y n b t bd
      (bufs.1, bufs.2.map Prod.fst) =
      (bufs.1.set (thread_j b t bd * W + thread_i b t bd)
          (render_pixel cu gr hit sc uv sq (thread_i b t bd) (thread_j b t bd)
            min_y W max_y n st).1,
        (bufs.2.map Prod.fst).set (thread_j b t bd * W + thread_i b t bd)
          (render_pixel cu gr hit sc uv sq (thread_i b t bd) (thread_j b t bd)
            min_y W max_y n st).2) := by
    unfold render
    simp only
    rw [if_neg (by omega), hst2]
  refine ⟨calls, ?_, e2, e3, e4, ?_, ?_⟩
  · rw [hl]
    simp only
    rw [List.getElem?_set_self hlt]
    rfl
  · rw [hl, hp]
  · rw [hl, hp]
    simp only
    rw [List.map_set]

/-- The statement of C10 for pixel `(1, 1)` of the band `[2, 4)` of an image of
width 2, with two samples and every draw equal to `1/2`: `get_ray` is called
twice, with coordinates in `(0, 1]`. -/
theorem render_coordinates_normalised_witness :
    ∃ calls : List (ℚ × ℚ × Nat),
      ((render (logged_uniform half_uniform) (logged_get_ray pinhole_get_ray) ground_hit
          (logged_scatter grey_scatter) axis_unit_vector plain_sqrt 2 2 4 2
          ⟨0, 0⟩ ⟨1, 1⟩ ⟨8, 8⟩ fresh_logged_bufs).2[3]?).map Prod.snd = some calls ∧
      calls.length = 2 ∧
      (∀ c, calls[0]? = some c → c = (3 / 4, 7 / 8, 2)) ∧
      ∀ c ∈ calls, (0 < c.1 ∧ c.1 ≤ 1) ∧ (0 < c.2.1 ∧ c.2.1 ≤ 1) := by
  obtain ⟨calls, e1, e2, e3, e4, _⟩ :=
    render_coordinates_normalised half_uniform pinhole_get_ray ground_hit grey_scatter
      axis_unit_vector plain_sqrt (fun s => by unfold half_uniform; norm_num) 2 2 4 2
      ⟨0, 0⟩ ⟨1, 1⟩ ⟨8, 8⟩ (by decide) (by decide) fresh_logged_bufs 0 [] rfl
  refine ⟨calls, ?_, e2, ?_, ?_⟩
  · rw [List.nil_append] at e1
    exact e1
  · intro c hc
    rw [e3 c hc]
    simp only [thread_i, thread_j, half_uniform, Prod.mk.injEq]
    norm_num
  · intro c hc
    obtain ⟨_, _, h1, h2⟩ := e4 c hc
    exact ⟨h1, h2⟩

/-! ## The claim on the image output -/

/-- The statement of C6 for pixel `(1, 1)` of device 1's band `[2, 4)` of a
`2 x 4` image on two devices: the colour stored at private index 3 is found at
shared index 7 after the copy. -/
theorem copy_band_places_pixel_witness :
    ∃ h_fb1,
      copy_band 2 4 2 1 fresh_h_fb
          (render half_uniform pinhole_get_ray ground_hit grey_scatter axis_unit_vector
            plain_sqrt (min_y 4 2 1) 2 (max_y 4 2 1) 1 ⟨0, 0⟩ ⟨1, 1⟩ ⟨8, 8⟩ fresh_bufs).1 =
        some h_fb1 ∧
      h_fb1[7]? =
        (render half_uniform pinhole_get_ray ground_hit grey_scatter axis_unit_vector
          plain_sqrt (min_y 4 2 1) 2 (max_y 4 2 1) 1 ⟨0, 0⟩ ⟨1, 1⟩ ⟨8, 8⟩ fresh_bufs).1[3]? := by
  obtain ⟨st, h_fb1, _, e2, e3, e4, _⟩ :=
    copy_band_places_pixel half_uniform pinhole_get_ray ground_hit grey_scatter
      axis_unit_vector plain_sqrt 1 2 4 2 1 (by decide) ⟨0, 0⟩ ⟨1, 1⟩ ⟨8, 8⟩
      (by decide) (by decide) fresh_bufs (by decide) (by decide) fresh_h_fb (by decide)
  exact ⟨h_fb1, e3, e4.trans e2.symm⟩

/-- The statement of C7 for a `2 x 5` image on two devices: the copies of
device 0 and device 1 give the same framebuffer in either order. -/
theorem bands_write_disjoint_witness :
    assemble 2 5 2 marked_d_fb [0, 1] (List.replicate 10 0) =
      assemble 2 5 2 marked_d_fb [1, 0] (List.replicate 10 0) :=
  ((bands_write_disjoint 2 5 2 marked_d_fb
    (fun d _ => by unfold marked_d_fb; rw [List.length_replicate])).2.2.2
    [0, 1] [1, 0] (List.Perm.swap 1 0 [])
    (fun d hd => by
      simp only [List.mem_cons, List.mem_singleton, List.not_mem_nil, or_false] at hd
      omega)
    (List.replicate 10 0) (by decide)).2

/-- The statement of C8 for pixel `(1, 1)` of device 1's band `[2, 4)` of a
`2 x 4` image on two devices: the state at private index 3 is initialised with
seed 1984, sequence number 7 and offset 0. -/
theorem render_init_stream_witness :
    (render_init record_init (min_y 4 2 1) 2 (max_y 4 2 1) ⟨0, 0⟩ ⟨1, 1⟩ ⟨8, 8⟩
        (List.replicate 4 (0, 0, 0)))[3]? = some (1984, 7, 0) :=
  (render_init_stream record_init 2 4 2 1 ⟨0, 0⟩ ⟨1, 1⟩ ⟨8, 8⟩ (by decide) (by decide)
    (List.replicate 4 (0, 0, 0)) (by decide)).1

end RayTracing
